import Mathlib

/-!
Verification of the perbase `par_granges_example` against its design spec.

The file shallowly embeds `src/examples/par_granges_example.rs`:

* `BasicReadFilter` / `BasicReadFilter.filterRead` embed the `ReadFilter`
  implementation (lines 24-40 of the source).  Rust `u16` flags and `u8`
  mapping qualities become `Nat`; the bitwise complement `!flags` of a
  `u16` becomes `not16`.
* `BasicProcessor.processRegion` embeds `process_region` (lines 46-66).
  The htslib `IndexedReader` pileup iterator is an external collaborator;
  its output for the fetched region is passed in as a list of
  `PileupColumn`s.  The in-range check and `flat_map`/`collect` shape of
  the source are mirrored by `List.filterMap`.
* `Position` and `Position.fromPileup` live in `perbase_lib`, whose code
  is not part of the sources here; they are modelled from the spec
  (sections 3 and 4.4.1).
-/

/-- A nucleotide as seen at one reference position of one read. -/
inductive Base where
  | A | C | G | T | N
deriving DecidableEq, Repr

/-- Modelled from the spec: an Alignment Record is "opaque to this design
except for the attributes the Read Filter and aggregation routine need:
SAM-style bitflags, mapping quality".  `flags` models the `u16` returned by
`read.flags()` and `mapq` the `u8` returned by `read.mapq()`. -/
structure Record where
  flags : Nat
  mapq : Nat
deriving DecidableEq, Repr

/-- One read's contribution to a single pileup column: the record it comes
from, the base it shows at the reference position (`none` when the read
covers the position via a deletion), and whether an insertion begins at
this position in this read. -/
structure PileupAlignment where
  record : Record
  base : Option Base
  insStart : Bool
deriving DecidableEq, Repr

/-- One pileup column produced by the reader for the fetched region: a
reference position together with the alignments overlapping it.  htslib
produces a column only for positions covered by at least one read. -/
structure PileupColumn where
  tid : Nat
  pos : Nat
  alignments : List PileupAlignment
deriving DecidableEq, Repr

/-- Bitwise complement of a `u16`, the meaning of Rust `!flags` at line 36
of the source. -/
def not16 (x : Nat) : Nat := Nat.xor (x % 65536) 65535

/-- The filter configuration struct of the source (lines 24-28). -/
structure BasicReadFilter where
  include_flags : Nat
  exclude_flags : Nat
  min_mapq : Nat
deriving DecidableEq, Repr

/-- Embeds `BasicReadFilter::filter_read` (lines 34-39 of the source):
`(!flags) & include_flags == 0 && flags & exclude_flags == 0
&& mapq >= min_mapq`. -/
def BasicReadFilter.filterRead (f : BasicReadFilter) (read : Record) : Bool :=
  (Nat.land (not16 read.flags) f.include_flags == 0)
    && (Nat.land read.flags f.exclude_flags == 0)
    && (f.min_mapq ≤ read.mapq)

/-- The filter constructed in `main` (lines 71-75 of the source):
`include_flags: 0, exclude_flags: 3848, min_mapq: 20`. -/
def defaultReadFilter : BasicReadFilter :=
  { include_flags := 0, exclude_flags := 3848, min_mapq := 20 }

/-- Modelled from the spec: a Position Record is
"(contig_id, position, depth, per-base counts, insertion count, deletion
count)".  The concrete `perbase_lib::position::Position` type is not among
the sources. -/
structure Position where
  contig : Nat
  pos : Nat
  depth : Nat
  a : Nat
  c : Nat
  g : Nat
  t : Nat
  n : Nat
  ins : Nat
  del : Nat
deriving DecidableEq, Repr

/-- The all-zero Position Record at a given contig and position. -/
def Position.empty (tid p : Nat) : Position :=
  { contig := tid, pos := p, depth := 0, a := 0, c := 0, g := 0, t := 0
    n := 0, ins := 0, del := 0 }

/-- Modelled from the spec (section 4.4.1): one step of the accumulation
over the alignments of a pileup column.  A non-passing read is discarded
from all counts; a passing read adds one to the depth, one to the count of
the base it shows (or to the deletion count when it covers the position via
a deletion), and one to the insertion-open count when an insertion begins
here. -/
def Position.update (rf : Record → Bool) (acc : Position)
    (al : PileupAlignment) : Position :=
  if rf al.record then
    { contig := acc.contig
      pos := acc.pos
      depth := acc.depth + 1
      a := acc.a + (if al.base = some Base.A then 1 else 0)
      c := acc.c + (if al.base = some Base.C then 1 else 0)
      g := acc.g + (if al.base = some Base.G then 1 else 0)
      t := acc.t + (if al.base = some Base.T then 1 else 0)
      n := acc.n + (if al.base = some Base.N then 1 else 0)
      ins := acc.ins + (if al.insStart then 1 else 0)
      del := acc.del + (if al.base = none then 1 else 0) }
  else acc

/-- Modelled from the spec: `Position::from_pileup` of `perbase_lib` (not
among the sources; called at line 59).  Builds the Position Record for one
pileup column by evaluating the Read Filter on every overlapping record
and accumulating the counts of section 4.4.1. -/
def Position.fromPileup (p : PileupColumn) (rf : Record → Bool) : Position :=
  p.alignments.foldl (Position.update rf) (Position.empty p.tid p.pos)

/-- Embeds the body of `BasicProcessor::process_region` (lines 52-64 of
the source) once the reader has produced its pileup columns: for each
column, keep it exactly when `start <= pos && pos < stop` and turn it into
a Position Record, else drop it (`flat_map` over `Some`/`None`). -/
def processRegion (rf : Record → Bool) (start stop : Nat)
    (pileups : List PileupColumn) : List Position :=
  pileups.filterMap (fun p =>
    if start ≤ p.pos && p.pos < stop then
      some (Position.fromPileup p rf)
    else
      none)

/-- The state-passing embedding of `BasicProcessor` (lines 15-21 of the
source): the stored bam path and the read filter. -/
structure BasicProcessor where
  bamfile : String
  read_filter : Record → Bool

/-- Embeds `process_region` including its interaction with the processor
state: the filesystem `fs` maps a path and a fetched `(tid, start, stop)`
region to the reader's pileup columns; a fresh reader is opened from
`self.bamfile` on every call and the processor is returned unchanged
(the Rust method takes `&self`). -/
def BasicProcessor.processRegionSt (self : BasicProcessor)
    (fs : String → Nat → Nat → Nat → List PileupColumn)
    (tid start stop : Nat) : List Position × BasicProcessor :=
  (processRegion self.read_filter start stop (fs self.bamfile tid start stop),
    self)

/-- A sequence of `process_region` invocations threading the processor
state, to express that no number of invocations mutates the processor. -/
def runInvocations (fs : String → Nat → Nat → Nat → List PileupColumn) :
    BasicProcessor → List (Nat × Nat × Nat) →
    List (List Position) × BasicProcessor
  | self, [] => ([], self)
  | self, arg :: rest =>
    let step := self.processRegionSt fs arg.1 arg.2.1 arg.2.2
    let tail := runInvocations fs step.2 rest
    (step.1 :: tail.1, tail.2)

/-- All-or-nothing extraction of the raw pileup iterator: the source calls
`p.expect("Extracted a pileup")` on every item, so one failed item
(`none`) aborts the invocation with no partial result. -/
def sequencePileups : List (Option PileupColumn) → Option (List PileupColumn)
  | [] => some []
  | none :: _ => none
  | some p :: rest => (sequencePileups rest).map (p :: ·)

/-- Embeds the fallible run of `process_region` (lines 47-64): opening the
indexed reader and fetching the region are `Result`s consumed by
`.expect(..)`, as is each pileup item; a panic is modelled as `none` and a
normal return as `some` of the collected vector. -/
def processRegionRun (openResult fetchResult : Option Unit)
    (rawPileups : List (Option PileupColumn)) (rf : Record → Bool)
    (start stop : Nat) : Option (List Position) :=
  match openResult with
  | none => none
  | some _ =>
    match fetchResult with
    | none => none
    | some _ =>
      (sequencePileups rawPileups).map (processRegion rf start stop)

/-! ### Helper lemmas -/

/-- Unfolding lemma: `process_region` is the map of `from_pileup` over
the in-range pileup columns. -/
theorem processRegion_eq (rf : Record → Bool) (start stop : Nat)
    (pileups : List PileupColumn) :
    processRegion rf start stop pileups
      = (pileups.filter (fun p => start ≤ p.pos && p.pos < stop)).map
          (fun p => Position.fromPileup p rf) := by
  induction pileups with
  | nil => rfl
  | cons p ps ih =>
    simp only [processRegion, List.filterMap_cons, List.filter_cons] at ih ⊢
    by_cases h : (start ≤ p.pos && p.pos < stop) = true
    · rw [if_pos h, if_pos h, ih]; rfl
    · rw [if_neg h, if_neg h, ih]

/-- The accumulation loop never changes the contig or position fields. -/
theorem foldl_update_pos (rf : Record → Bool) :
    ∀ (l : List PileupAlignment) (acc : Position),
      (l.foldl (Position.update rf) acc).pos = acc.pos
        ∧ (l.foldl (Position.update rf) acc).contig = acc.contig
  | [], _ => ⟨rfl, rfl⟩
  | al :: l, acc => by
    have ih := foldl_update_pos rf l (Position.update rf acc al)
    have hupd : (Position.update rf acc al).pos = acc.pos
        ∧ (Position.update rf acc al).contig = acc.contig := by
      by_cases h : rf al.record = true <;> simp [Position.update, h]
    simp only [List.foldl_cons]
    exact ⟨ih.1.trans hupd.1, ih.2.trans hupd.2⟩

/-- The Position Record built from a pileup column carries the column's
position. -/
theorem fromPileup_pos (p : PileupColumn) (rf : Record → Bool) :
    (Position.fromPileup p rf).pos = p.pos :=
  (foldl_update_pos rf p.alignments (Position.empty p.tid p.pos)).1

/-- The Position Record built from a pileup column carries the column's
contig id. -/
theorem fromPileup_contig (p : PileupColumn) (rf : Record → Bool) :
    (Position.fromPileup p rf).contig = p.tid :=
  (foldl_update_pos rf p.alignments (Position.empty p.tid p.pos)).2

/-- A numeric field of the accumulator that `update` advances by `g al`
per alignment sums the `g` values over the whole loop. -/
theorem foldl_update_add (rf : Record → Bool) (f : Position → Nat)
    (g : PileupAlignment → Nat)
    (hf : ∀ acc al, f (Position.update rf acc al) = f acc + g al) :
    ∀ (l : List PileupAlignment) (acc : Position),
      f (l.foldl (Position.update rf) acc) = f acc + (l.map g).sum
  | [], _ => by simp
  | al :: l, acc => by
    rw [List.foldl_cons, foldl_update_add rf f g hf l, hf]
    simp [Nat.add_assoc]

/-- Counting with an indicator sum is counting with `filter`. -/
theorem sum_indicator_eq_length_filter (P : PileupAlignment → Bool) :
    ∀ l : List PileupAlignment,
      (l.map (fun x => if P x then 1 else 0)).sum = (l.filter P).length
  | [] => rfl
  | x :: l => by
    by_cases h : P x = true <;>
      simp [List.filter_cons, h, sum_indicator_eq_length_filter P l,
        Nat.add_comm]

/-- When the filter rejects every overlapping record, the accumulation
loop leaves the accumulator untouched. -/
theorem foldl_update_all_fail (rf : Record → Bool) :
    ∀ (l : List PileupAlignment) (acc : Position),
      (∀ al ∈ l, rf al.record = false) →
      l.foldl (Position.update rf) acc = acc
  | [], _, _ => rfl
  | al :: l, acc, h => by
    have hal : rf al.record = false := h al (List.mem_cons_self al l)
    have hupd : Position.update rf acc al = acc := by
      simp [Position.update, hal]
    rw [List.foldl_cons, hupd]
    exact foldl_update_all_fail rf l acc
      (fun a ha => h a (List.mem_cons_of_mem al ha))

/-- A failed pileup item poisons the whole extraction. -/
theorem sequencePileups_eq_none :
    ∀ (l : List (Option PileupColumn)), none ∈ l → sequencePileups l = none
  | none :: _, _ => rfl
  | some p :: l, h => by
    have hl : none ∈ l := by
      rcases List.mem_cons.mp h with h1 | h1
      · exact absurd h1 (by simp)
      · exact h1
    simp [sequencePileups, sequencePileups_eq_none l hl]

/-- The inclusion test under an empty inclusion mask: `x & 0 = 0`. -/
theorem land_zero (n : Nat) : Nat.land n 0 = 0 := Nat.and_zero n

/-! ### Claim theorems -/

/-- C1: every Position record returned by
`BasicProcessor::process_region(tid, start, stop)` has a position `p`
with `start <= p < stop`; pileup positions outside this half-open range
are discarded by the processor itself. -/
theorem processRegion_pos_in_range (rf : Record → Bool) (start stop : Nat)
    (pileups : List PileupColumn) (q : Position)
    (hq : q ∈ processRegion rf start stop pileups) :
    start ≤ q.pos ∧ q.pos < stop := by
  rw [processRegion_eq] at hq
  obtain ⟨p, hp, hpq⟩ := List.mem_map.mp hq
  have hc := List.of_mem_filter hp
  simp only [Bool.and_eq_true, decide_eq_true_eq] at hc
  rw [← hpq, fromPileup_pos]
  exact hc

/-- Witness for C1 at a concrete pileup column inside the range. -/
theorem processRegion_pos_in_range_witness :
    1 ≤ (Position.fromPileup ⟨0, 2, []⟩ (fun _ => true)).pos
      ∧ (Position.fromPileup ⟨0, 2, []⟩ (fun _ => true)).pos < 3 :=
  processRegion_pos_in_range (fun _ => true) 1 3 [⟨0, 2, []⟩]
    (Position.fromPileup ⟨0, 2, []⟩ (fun _ => true)) (by decide)

/-- C3 counterexample: a record with flags 512 (the QC-fail bit) has none
of the secondary (256), duplicate (1024), supplementary (2048) bits set
and mapping quality 20, yet the default filter built in `main` rejects it,
because `exclude_flags = 3848` also contains the mate-unmapped (8) and
QC-fail (512) bits. -/
theorem filterRead_default_rejects_qcfail :
    Nat.land 512 (256 + 1024 + 2048) = 0 ∧ (20 : Nat) ≤ 20
      ∧ defaultReadFilter.filterRead ⟨512, 20⟩ = false := by decide

/-- C3 (amended): the default read filter of `main` passes a record iff
`flags & 3848 == 0` and `mapq >= 20`, where `3848 = 8 + 256 + 512 + 1024
+ 2048` excludes mate-unmapped, secondary, QC-fail, duplicate and
supplementary reads; no flag bit outside the mask 3848 affects the
verdict. -/
theorem filterRead_default_characterization (r s : Record) :
    (defaultReadFilter.filterRead r = true
        ↔ (Nat.land r.flags 3848 = 0 ∧ 20 ≤ r.mapq))
  ∧ (Nat.land r.flags 3848 = Nat.land s.flags 3848 → r.mapq = s.mapq →
      defaultReadFilter.filterRead r = defaultReadFilter.filterRead s) := by
  constructor
  · simp [BasicReadFilter.filterRead, defaultReadFilter, Nat.land]
  · intro h1 h2
    simp [BasicReadFilter.filterRead, defaultReadFilter, h1, h2, land_zero]

/-- Witness for C3's amended theorem: flags 1 and 2 agree on the mask and
get the same verdict; the iff holds at flags 1, mapq 30. -/
theorem filterRead_default_characterization_witness :
    (defaultReadFilter.filterRead ⟨1, 30⟩ = true
        ↔ (Nat.land 1 3848 = 0 ∧ 20 ≤ 30))
  ∧ defaultReadFilter.filterRead ⟨1, 30⟩
      = defaultReadFilter.filterRead ⟨2, 30⟩ :=
  ⟨(filterRead_default_characterization ⟨1, 30⟩ ⟨2, 30⟩).1,
    (filterRead_default_characterization ⟨1, 30⟩ ⟨2, 30⟩).2 (by decide) rfl⟩

/-- C4: `filter_read` is a deterministic function of the record's flags
and mapping quality alone: records agreeing on both get the same verdict
from the same filter.  (The embedding is a pure function, so repeated
calls and absence of side effects hold by construction.) -/
theorem filterRead_deterministic (f : BasicReadFilter) (r s : Record)
    (hflags : r.flags = s.flags) (hmapq : r.mapq = s.mapq) :
    f.filterRead r = f.filterRead s := by
  simp [BasicReadFilter.filterRead, hflags, hmapq]

/-- Witness for C4 at a concrete filter and record pair. -/
theorem filterRead_deterministic_witness :
    defaultReadFilter.filterRead ⟨4, 20⟩
      = defaultReadFilter.filterRead ⟨4, 20⟩ :=
  filterRead_deterministic defaultReadFilter ⟨4, 20⟩ ⟨4, 20⟩ rfl rfl

/-- C9: with `include_flags = 0` the inclusion test `(!flags) &
include_flags == 0` holds for every flags value, the verdict reduces to
`flags & exclude_flags == 0 && mapq >= min_mapq`, and a record whose
mapping quality equals `min_mapq` exactly passes the quality test. -/
theorem filterRead_include_zero (f : BasicReadFilter)
    (hinc : f.include_flags = 0) (r : Record) :
    Nat.land (not16 r.flags) f.include_flags = 0
  ∧ f.filterRead r
      = ((Nat.land r.flags f.exclude_flags == 0)
          && decide (f.min_mapq ≤ r.mapq))
  ∧ (r.mapq = f.min_mapq → f.min_mapq ≤ r.mapq) := by
  refine ⟨?_, ?_, ?_⟩
  · rw [hinc]; simp [Nat.land]
  · simp [BasicReadFilter.filterRead, hinc, Nat.land]
  · intro h; exact Nat.le_of_eq h.symm

/-- Witness for C9 at the default filter and a record at the quality
threshold. -/
theorem filterRead_include_zero_witness :
    Nat.land (not16 7) defaultReadFilter.include_flags = 0
  ∧ defaultReadFilter.filterRead ⟨7, 20⟩
      = ((Nat.land 7 defaultReadFilter.exclude_flags == 0)
          && decide (defaultReadFilter.min_mapq ≤ 20))
  ∧ ((20 : Nat) = defaultReadFilter.min_mapq →
      defaultReadFilter.min_mapq ≤ 20) :=
  filterRead_include_zero defaultReadFilter rfl ⟨7, 20⟩

/-- C2 counterexample: with chunk `[0, 2)` and a single read covering only
position 0, `process_region` emits no record at position 1, although
position 1 lies in `[start, stop)`.  htslib's pileup yields no column for
a position covered by no read, and the processor adds none. -/
theorem processRegion_gap_at_uncovered_position :
    ¬ ∃ q ∈ processRegion defaultReadFilter.filterRead 0 2
        [⟨0, 0, [⟨⟨0, 30⟩, some Base.A, false⟩]⟩], q.pos = 1 := by decide

/-- C2 (amended): the positions of the records returned by
`process_region` are exactly the pileup-column positions that lie in
`[start, stop)`, one record per such column (in particular no duplicates
when column positions are distinct); a column all of whose overlapping
reads fail the filter still yields a record with all counts zero.
Positions covered by no read produce no pileup column and hence no
record. -/
theorem processRegion_positions_exact (rf : Record → Bool)
    (start stop : Nat) (pileups : List PileupColumn) :
    (processRegion rf start stop pileups).map Position.pos
        = (pileups.map PileupColumn.pos).filter
            (fun x => start ≤ x && x < stop)
  ∧ (∀ p : PileupColumn, (∀ al ∈ p.alignments, rf al.record = false) →
      Position.fromPileup p rf = Position.empty p.tid p.pos) := by
  constructor
  · rw [processRegion_eq, List.map_map, List.filter_map]
    exact List.map_congr_left (fun p _ => fromPileup_pos p rf)
  · intro p h
    exact foldl_update_all_fail rf p.alignments _ h

/-- Witness for C2's amended theorem at a concrete region: position 0 is
kept, position 5 is out of range, and a column whose only read fails the
filter collapses to the all-zero record. -/
theorem processRegion_positions_exact_witness :
    ((processRegion (fun _ => false) 0 2 [⟨0, 0, []⟩, ⟨0, 5, []⟩]).map
          Position.pos = [0])
  ∧ Position.fromPileup ⟨0, 0, [⟨⟨0, 30⟩, some Base.A, false⟩]⟩
        (fun _ => false) = Position.empty 0 0 :=
  ⟨((processRegion_positions_exact (fun _ => false) 0 2
        [⟨0, 0, []⟩, ⟨0, 5, []⟩]).1).trans (by decide),
    (processRegion_positions_exact (fun _ => false) 0 2 []).2
      ⟨0, 0, [⟨⟨0, 30⟩, some Base.A, false⟩]⟩ (by intro al _; rfl)⟩

/-- C5: the records returned by `process_region` are strictly increasing
in coordinate, given that the reader's pileup columns are (htslib yields
pileup columns in ascending position order). -/
theorem processRegion_strictly_increasing (rf : Record → Bool)
    (start stop : Nat) (pileups : List PileupColumn)
    (hsorted : pileups.Pairwise (fun p q => p.pos < q.pos)) :
    (processRegion rf start stop pileups).Pairwise
      (fun q r => q.pos < r.pos) := by
  rw [processRegion_eq]
  have h2 := hsorted.filter (fun p => start ≤ p.pos && p.pos < stop)
  refine List.pairwise_map.mpr (h2.imp ?_)
  intro a b h
  rw [fromPileup_pos, fromPileup_pos]
  exact h

/-- Witness for C5 on two ascending pileup columns. -/
theorem processRegion_strictly_increasing_witness :
    (processRegion (fun _ => true) 0 5
        [⟨0, 1, []⟩, ⟨0, 2, []⟩]).Pairwise (fun q r => q.pos < r.pos) :=
  processRegion_strictly_increasing (fun _ => true) 0 5
    [⟨0, 1, []⟩, ⟨0, 2, []⟩] (by decide)

/-- One numeric field of the Position Record built from a pileup column
counts the alignments satisfying its predicate. -/
theorem fromPileup_field (rf : Record → Bool) (f : Position → Nat)
    (P : PileupAlignment → Bool)
    (hf : ∀ acc al,
      f (Position.update rf acc al) = f acc + (if P al then 1 else 0))
    (p : PileupColumn) (hempty : f (Position.empty p.tid p.pos) = 0) :
    f (Position.fromPileup p rf) = (p.alignments.filter P).length := by
  rw [Position.fromPileup, foldl_update_add rf f _ hf, hempty,
    sum_indicator_eq_length_filter, Nat.zero_add]

/-- C6: in every emitted Position record, the depth counts exactly the
filter-passing reads covering the position, and the per-base, insertion
and deletion counters likewise count only filter-passing reads;
non-passing reads contribute to no counter. -/
theorem fromPileup_counts_only_passing (p : PileupColumn)
    (rf : Record → Bool) :
    (Position.fromPileup p rf).depth
        = (p.alignments.filter (fun al => rf al.record)).length
  ∧ (Position.fromPileup p rf).a
        = (p.alignments.filter
            (fun al => rf al.record && decide (al.base = some Base.A))).length
  ∧ (Position.fromPileup p rf).c
        = (p.alignments.filter
            (fun al => rf al.record && decide (al.base = some Base.C))).length
  ∧ (Position.fromPileup p rf).g
        = (p.alignments.filter
            (fun al => rf al.record && decide (al.base = some Base.G))).length
  ∧ (Position.fromPileup p rf).t
        = (p.alignments.filter
            (fun al => rf al.record && decide (al.base = some Base.T))).length
  ∧ (Position.fromPileup p rf).n
        = (p.alignments.filter
            (fun al => rf al.record && decide (al.base = some Base.N))).length
  ∧ (Position.fromPileup p rf).ins
        = (p.alignments.filter
            (fun al => rf al.record && al.insStart)).length
  ∧ (Position.fromPileup p rf).del
        = (p.alignments.filter
            (fun al => rf al.record && decide (al.base = none))).length := by
  refine ⟨?_, ?_, ?_, ?_, ?_, ?_, ?_, ?_⟩ <;>
    apply fromPileup_field <;>
    first
      | rfl
      | (intro acc al
         by_cases h : rf al.record = true <;>
           simp [Position.update, h])

/-- C7: if opening the indexed reader fails, or fetching the region
fails, or extracting any pileup column fails, the invocation of
`process_region` panics and returns no partial result vector. -/
theorem processRegionRun_aborts_on_failure
    (openResult fetchResult : Option Unit)
    (rawPileups : List (Option PileupColumn)) (rf : Record → Bool)
    (start stop : Nat)
    (hfail : openResult = none ∨ fetchResult = none ∨ none ∈ rawPileups) :
    processRegionRun openResult fetchResult rawPileups rf start stop
      = none := by
  rcases hfail with h | h | h
  · rw [h]; rfl
  · rw [h]; cases openResult <;> rfl
  · cases openResult with
    | none => rfl
    | some u =>
      cases fetchResult with
      | none => rfl
      | some v =>
        simp [processRegionRun, sequencePileups_eq_none rawPileups h]

/-- Witness for C7: one failed pileup item aborts the whole invocation. -/
theorem processRegionRun_aborts_on_failure_witness :
    processRegionRun (some ()) (some ()) [none] (fun _ => true) 0 1
      = none :=
  processRegionRun_aborts_on_failure (some ()) (some ()) [none]
    (fun _ => true) 0 1 (Or.inr (Or.inr (by decide)))

/-- C8: `process_region` is deterministic: two invocations seeing the
same reader-open and fetch outcomes, the same pileup columns (same bam
contents), the same filter and the same region bounds return identical
sequences of Position records. -/
theorem processRegionRun_deterministic (o1 o2 f1 f2 : Option Unit)
    (ps1 ps2 : List (Option PileupColumn)) (rf1 rf2 : Record → Bool)
    (s1 s2 t1 t2 : Nat)
    (ho : o1 = o2) (hfe : f1 = f2) (hp : ps1 = ps2) (hr : rf1 = rf2)
    (hs : s1 = s2) (ht : t1 = t2) :
    processRegionRun o1 f1 ps1 rf1 s1 t1
      = processRegionRun o2 f2 ps2 rf2 s2 t2 := by
  rw [ho, hfe, hp, hr, hs, ht]

/-- Witness for C8 at a concrete repeated invocation. -/
theorem processRegionRun_deterministic_witness :
    processRegionRun (some ()) (some ()) [some ⟨0, 1, []⟩]
        (fun _ => true) 0 2
      = processRegionRun (some ()) (some ()) [some ⟨0, 1, []⟩]
        (fun _ => true) 0 2 :=
  processRegionRun_deterministic (some ()) (some ()) (some ()) (some ())
    [some ⟨0, 1, []⟩] [some ⟨0, 1, []⟩] (fun _ => true) (fun _ => true)
    0 0 2 2 rfl rfl rfl rfl rfl rfl

/-- C10: `process_region` takes the processor by shared reference and
mutates no field: after any number of invocations the processor is
unchanged, and each invocation's output is computed from a reader opened
fresh from the stored bam path, so invocations share no mutable state. -/
theorem processRegion_no_mutation (self : BasicProcessor)
    (fs : String → Nat → Nat → Nat → List PileupColumn)
    (args : List (Nat × Nat × Nat)) :
    (runInvocations fs self args).2 = self
  ∧ (runInvocations fs self args).1
      = args.map (fun arg =>
          processRegion self.read_filter arg.2.1 arg.2.2
            (fs self.bamfile arg.1 arg.2.1 arg.2.2)) := by
  induction args with
  | nil => exact ⟨rfl, rfl⟩
  | cons arg rest ih =>
    refine ⟨?_, ?_⟩
    · simpa [runInvocations, BasicProcessor.processRegionSt] using ih.1
    · simp [runInvocations, BasicProcessor.processRegionSt, ih.1, ih.2]
